import Mathlib

/-!
Shallow embedding of the Datax social-metrics ingestion core:
the delta/upsert engine (`graph_sql.py`, `fb_sql.py`), the rate-limited
Graph API client and paginator (`graph_api.py`, `fb_api.py`), the weekly
snapshot reducer (`fb_ingest.py`, `ig_ingest.py`) and the audience-segment
writer, together with theorems settling the specification claims.
-/

namespace Datax

/-- A metric mapping `m : dict` from the ingestion layer: canonical field
name to integer value.  `mget` is Python `m.get(key)` (first binding wins),
`mgetD` is `m.get(key, dflt)`. -/
abbrev MDict := List (String × Int)

def mget (m : MDict) (k : String) : Option Int :=
  (m.find? (fun p => decide (p.1 = k))).map (fun p => p.2)

def mgetD (m : MDict) (k : String) (dflt : Int) : Int :=
  (mget m k).getD dflt

/-- A stored row of `metricas_publicaciones_diarias` as written by
`graph_sql.upsert_metricas_publicacion_diaria` (the columns named in its
INSERT).  `fecha_descarga` is the date as an ordinal number. -/
structure Row where
  plataforma : String
  pagina_id : String
  publicacion_id : String
  fecha_descarga : Nat
  visualizaciones : Int
  alcance : Int
  impresiones : Int
  tiempo_promedio_seg : Option Int
  comentarios : Int
  compartidos : Int
  guardados : Int
  clics_enlace : Int
  ctr : Option Int
  delta_visualizaciones : Int
  delta_alcance : Int
  delta_comentarios : Int
  delta_compartidos : Int
  delta_guardados : Int
deriving Repr, DecidableEq

/-- `WHERE plataforma=%s AND pagina_id=%s AND publicacion_id=%s` of the
previous-record lookup. -/
def entityMatches (plataforma pagina_id publicacion_id : String) (r : Row) : Bool :=
  decide (r.plataforma = plataforma) && decide (r.pagina_id = pagina_id) &&
    decide (r.publicacion_id = publicacion_id)

/-- `ORDER BY fecha_descarga DESC LIMIT 1`: the element with the greatest
`fecha` value (first one encountered on a tie). -/
def selectMaxFecha {α : Type} (f : α → Nat) : List α → Option α
  | [] => none
  | r :: rs =>
    match selectMaxFecha f rs with
    | none => some r
    | some b => if f r < f b then some b else some r

/-- The candidate rows of `_ultimo_registro_prev`: same entity, strictly
earlier download date. -/
def prevQuery (db : List Row) (plataforma pagina_id publicacion_id : String)
    (fecha_descarga : Nat) : List Row :=
  db.filter (fun r =>
    entityMatches plataforma pagina_id publicacion_id r &&
      decide (r.fecha_descarga < fecha_descarga))

/-- The tuple projected by `_ultimo_registro_prev`:
`SELECT visualizaciones, alcance, impresiones, comentarios, compartidos, guardados`. -/
def prevTuple (r : Row) : List Int :=
  [r.visualizaciones, r.alcance, r.impresiones, r.comentarios, r.compartidos, r.guardados]

/-- `_ultimo_registro_prev` of `graph_sql.py`. -/
def ultimo_registro_prev (db : List Row) (plataforma pagina_id publicacion_id : String)
    (fecha_descarga : Nat) : Option (List Int) :=
  (selectMaxFecha Row.fecha_descarga
    (prevQuery db plataforma pagina_id publicacion_id fecha_descarga)).map prevTuple

/-- `d = lambda key, idx: (m.get(key, 0) - (prev[idx] if prev else 0))`. -/
def deltaOf (m : MDict) (prev : Option (List Int)) (key : String) (idx : Nat) : Int :=
  mgetD m key 0 - (match prev with | some t => t.getD idx 0 | none => 0)

/-- The row dict built by `upsert_metricas_publicacion_diaria` in
`graph_sql.py` (delta indices 0, 1, 3, 4, 5 of the previous tuple). -/
def buildRow (plataforma pagina_id publicacion_id : String) (fecha_descarga : Nat)
    (m : MDict) (prev : Option (List Int)) : Row where
  plataforma := plataforma
  pagina_id := pagina_id
  publicacion_id := publicacion_id
  fecha_descarga := fecha_descarga
  visualizaciones := mgetD m "visualizaciones" 0
  alcance := mgetD m "alcance" 0
  impresiones := mgetD m "impresiones" 0
  tiempo_promedio_seg := mget m "tiempo_promedio"
  comentarios := mgetD m "comentarios" 0
  compartidos := mgetD m "compartidos" 0
  guardados := mgetD m "guardados" 0
  clics_enlace := mgetD m "clics_enlace" 0
  ctr := mget m "ctr"
  delta_visualizaciones := deltaOf m prev "visualizaciones" 0
  delta_alcance := deltaOf m prev "alcance" 1
  delta_comentarios := deltaOf m prev "comentarios" 3
  delta_compartidos := deltaOf m prev "compartidos" 4
  delta_guardados := deltaOf m prev "guardados" 5

/-- The conflict target `(plataforma, pagina_id, publicacion_id, fecha_descarga)`. -/
def sameKey (a b : Row) : Bool :=
  decide (a.plataforma = b.plataforma) && decide (a.pagina_id = b.pagina_id) &&
    decide (a.publicacion_id = b.publicacion_id) && decide (a.fecha_descarga = b.fecha_descarga)

/-- `INSERT ... ON CONFLICT (key) DO UPDATE SET` every non-key column:
on a key conflict the stored row is fully overwritten by the incoming one,
otherwise the incoming row is inserted. -/
def upsertBy {α : Type} (key : α → α → Bool) (db : List α) (new : α) : List α :=
  if db.any (fun r => key r new) then db.map (fun r => if key r new then new else r)
  else db ++ [new]

/-- `upsert_metricas_publicacion_diaria` of `graph_sql.py`: fetch the
previous record, compute deltas, then upsert on the full key. -/
def upsert_metricas_publicacion_diaria (db : List Row)
    (plataforma pagina_id publicacion_id : String) (fecha_descarga : Nat)
    (m : MDict) : List Row :=
  let prev := ultimo_registro_prev db plataforma pagina_id publicacion_id fecha_descarga
  upsertBy sameKey db (buildRow plataforma pagina_id publicacion_id fecha_descarga m prev)

/-- A stored row of `metricas_publicaciones_diarias` as written by the
`Datax_RedesS/src/fb_sql.py` variant of the upsert (adds the reaction
total and sub-type columns and `delta_reacciones`). -/
structure RowFB where
  plataforma : String
  pagina_id : String
  publicacion_id : String
  fecha_descarga : Nat
  visualizaciones : Int
  alcance : Int
  impresiones : Int
  tiempo_promedio_seg_numeric : Option Int
  reacciones : Int
  me_gusta : Int
  me_encanta : Int
  me_divierte : Int
  me_asombra : Int
  me_entristece : Int
  me_enoja : Int
  comentarios : Int
  compartidos : Int
  guardados : Int
  clics_enlace : Int
  ctr : Option Int
  delta_visualizaciones : Int
  delta_alcance : Int
  delta_reacciones : Int
  delta_comentarios : Int
  delta_compartidos : Int
  delta_guardados : Int
deriving Repr, DecidableEq

/-- Entity filter of the `fb_sql.py` previous-record lookup. -/
def entityMatchesFB (plataforma pagina_id publicacion_id : String) (r : RowFB) : Bool :=
  decide (r.plataforma = plataforma) && decide (r.pagina_id = pagina_id) &&
    decide (r.publicacion_id = publicacion_id)

/-- Candidate rows of the `fb_sql.py` previous-record lookup. -/
def prevQueryFB (db : List RowFB) (plataforma pagina_id publicacion_id : String)
    (fecha_descarga : Nat) : List RowFB :=
  db.filter (fun r =>
    entityMatchesFB plataforma pagina_id publicacion_id r &&
      decide (r.fecha_descarga < fecha_descarga))

/-- Tuple projected by the `fb_sql.py` lookup: `SELECT visualizaciones,
alcance, impresiones, reacciones, comentarios, compartidos, guardados`. -/
def prevTupleFB (r : RowFB) : List Int :=
  [r.visualizaciones, r.alcance, r.impresiones, r.reacciones, r.comentarios,
    r.compartidos, r.guardados]

/-- `_ultimo_registro_prev` of `fb_sql.py`. -/
def ultimo_registro_prev_fb (db : List RowFB) (plataforma pagina_id publicacion_id : String)
    (fecha_descarga : Nat) : Option (List Int) :=
  (selectMaxFecha RowFB.fecha_descarga
    (prevQueryFB db plataforma pagina_id publicacion_id fecha_descarga)).map prevTupleFB

/-- The row dict built by `upsert_metricas_publicacion_diaria` in
`fb_sql.py` (delta indices 0, 1, 3, 4, 5, 6 of the previous tuple). -/
def buildRowFB (plataforma pagina_id publicacion_id : String) (fecha_descarga : Nat)
    (m : MDict) (prev : Option (List Int)) : RowFB where
  plataforma := plataforma
  pagina_id := pagina_id
  publicacion_id := publicacion_id
  fecha_descarga := fecha_descarga
  visualizaciones := mgetD m "visualizaciones" 0
  alcance := mgetD m "alcance" 0
  impresiones := mgetD m "impresiones" 0
  tiempo_promedio_seg_numeric := mget m "tiempo_promedio"
  reacciones := mgetD m "reacciones" 0
  me_gusta := mgetD m "me_gusta" 0
  me_encanta := mgetD m "me_encanta" 0
  me_divierte := mgetD m "me_divierte" 0
  me_asombra := mgetD m "me_asombra" 0
  me_entristece := mgetD m "me_entristece" 0
  me_enoja := mgetD m "me_enoja" 0
  comentarios := mgetD m "comentarios" 0
  compartidos := mgetD m "compartidos" 0
  guardados := mgetD m "guardados" 0
  clics_enlace := mgetD m "clics_enlace" 0
  ctr := mget m "ctr"
  delta_visualizaciones := deltaOf m prev "visualizaciones" 0
  delta_alcance := deltaOf m prev "alcance" 1
  delta_reacciones := deltaOf m prev "reacciones" 3
  delta_comentarios := deltaOf m prev "comentarios" 4
  delta_compartidos := deltaOf m prev "compartidos" 5
  delta_guardados := deltaOf m prev "guardados" 6

/-- Conflict target of the `fb_sql.py` upsert. -/
def sameKeyFB (a b : RowFB) : Bool :=
  decide (a.plataforma = b.plataforma) && decide (a.pagina_id = b.pagina_id) &&
    decide (a.publicacion_id = b.publicacion_id) && decide (a.fecha_descarga = b.fecha_descarga)

/-- `upsert_metricas_publicacion_diaria` of `fb_sql.py`. -/
def upsert_metricas_publicacion_diaria_fb (db : List RowFB)
    (plataforma pagina_id publicacion_id : String) (fecha_descarga : Nat)
    (m : MDict) : List RowFB :=
  let prev := ultimo_registro_prev_fb db plataforma pagina_id publicacion_id fecha_descarga
  upsertBy sameKeyFB db (buildRowFB plataforma pagina_id publicacion_id fecha_descarga m prev)

/-! ## The statement trace of the daily upsert (graph_sql.py)

The source performs no validation of its key arguments: it issues the
previous-record SELECT first, builds the row dict, and issues the INSERT.
To settle claims about missing key fields, this variant takes the key
arguments as `Option` values (a missing argument is `none`, i.e. SQL
`NULL`), mirrors SQL three-valued comparison (`col = NULL` is never true,
`col < NULL` is never true), and returns the list of statements issued in
order together with what the lookup returned.  The application layer never
raises a validation error, hence the `Except` value is always `ok`. -/

inductive SqlStmt
  | selectUltimoPrev
  | insertMetricas
deriving Repr, DecidableEq

/-- Validation-error kind named by the specification (`InvalidRecord`);
the source never raises it. -/
inductive IngestErr
  | invalidRecord
deriving Repr, DecidableEq

/-- Entity filter under SQL NULL semantics: a `NULL` parameter matches
no stored row. -/
def entityMatchesOpt (plataforma pagina_id publicacion_id : Option String) (r : Row) : Bool :=
  (match plataforma with | some s => decide (r.plataforma = s) | none => false) &&
    (match pagina_id with | some s => decide (r.pagina_id = s) | none => false) &&
    (match publicacion_id with | some s => decide (r.publicacion_id = s) | none => false)

/-- `fecha_descarga < NULL` is never true. -/
def fechaLtOpt (r : Row) (fecha : Option Nat) : Bool :=
  match fecha with | some f => decide (r.fecha_descarga < f) | none => false

/-- `upsert_metricas_publicacion_diaria` of `graph_sql.py`, instrumented
with the sequence of statements it issues.  The function body mirrors the
source line by line: previous-record SELECT first, then the INSERT; there
is no branch that could return an error before the SELECT. -/
def upsert_diaria_checked (db : List Row)
    (plataforma pagina_id publicacion_id : Option String) (fecha_descarga : Option Nat)
    (m : MDict) : Except IngestErr (List SqlStmt × Option (List Int)) :=
  let prev := (selectMaxFecha Row.fecha_descarga
    (db.filter (fun r =>
      entityMatchesOpt plataforma pagina_id publicacion_id r &&
        fechaLtOpt r fecha_descarga))).map prevTuple
  Except.ok ([SqlStmt.selectUltimoPrev, SqlStmt.insertMetricas], prev)

/-! ## Rate-limited API client (`graph_api.py` / `fb_api.py`) -/

/-- An HTTP response as seen by `fb_get`: `r.status_code` and `r.text`
(for 200 responses `r.json()` is the parsed `r.text`; the body is kept
abstract as a string). -/
structure HttpResponse where
  status : Nat
  body : String
deriving Repr, DecidableEq

/-- The `RuntimeError` kinds `_pick_token` and `fb_get` can raise. -/
inductive FbError
  | missingToken
  | upstream (status : Nat) (body : String)
  | rateLimitPersistente
deriving Repr, DecidableEq

/-- Python truthiness of an optional string: `None` and `""` are falsy. -/
def strFalsy : Option String → Bool
  | none => true
  | some s => decide (s = "")

/-- Python `a or b` on optional strings: `b` when `a` is falsy. -/
def pyOr (a b : Option String) : Option String :=
  if strFalsy a then b else a

/-- The final `if not token: raise` guard of `_pick_token`. -/
def tokenOrFail (token : Option String) : Except FbError String :=
  match token with
  | none => Except.error FbError.missingToken
  | some s => if s = "" then Except.error FbError.missingToken else Except.ok s

/-- `_pick_token` of `graph_api.py` / `fb_api.py`:
`explicit or getenv(ACCESS_TOKEN) or getenv(ACCESS_TOKEN_FB) or
getenv(ACCESS_TOKEN_IG)`, raising when the chain is falsy. -/
def pick_token (explicit envAccess envAccessFb envAccessIg : Option String) :
    Except FbError String :=
  tokenOrFail (pyOr explicit (pyOr envAccess (pyOr envAccessFb envAccessIg)))

instance {ε α : Type} [DecidableEq ε] [DecidableEq α] : DecidableEq (Except ε α) := fun x y =>
  match x, y with
  | Except.ok a, Except.ok b =>
    if h : a = b then isTrue (by rw [h]) else isFalse (by intro hc; cases hc; exact h rfl)
  | Except.ok _, Except.error _ => isFalse (by intro hc; cases hc)
  | Except.error _, Except.ok _ => isFalse (by intro hc; cases hc)
  | Except.error e, Except.error f =>
    if h : e = f then isTrue (by rw [h]) else isFalse (by intro hc; cases hc; exact h rfl)

/-- Observable outcome of one `fb_get` call: how many GET requests were
issued, the sleep durations performed in order (seconds), and the returned
body or raised error. -/
structure FbGetRun where
  requests : Nat
  sleeps : List Nat
  result : Except FbError String
deriving Repr, DecidableEq

/-- The `for attempt in range(5)` loop of `fb_get`: `resp n` is the
response to the request issued at attempt `n`.  On 200 return the body;
on 429/613 sleep `2 ^ attempt` seconds and continue; on anything else
raise `FB {status}: {text}`.  Falling out of the loop raises the
persistent-rate-limit error. -/
def fb_get_loop (resp : Nat → HttpResponse) :
    List Nat → Nat → List Nat → FbGetRun
  | [], reqs, sleeps => ⟨reqs, sleeps, Except.error FbError.rateLimitPersistente⟩
  | attempt :: rest, reqs, sleeps =>
    let r := resp attempt
    if r.status = 200 then ⟨reqs + 1, sleeps, Except.ok r.body⟩
    else if r.status = 429 ∨ r.status = 613 then
      fb_get_loop resp rest (reqs + 1) (sleeps ++ [2 ^ attempt])
    else ⟨reqs + 1, sleeps, Except.error (FbError.upstream r.status r.body)⟩

/-- `range(5)`. -/
def attemptSeq : List Nat := [0, 1, 2, 3, 4]

/-- The retry loop of `fb_get` run from its start. -/
def fb_get_run (resp : Nat → HttpResponse) : FbGetRun :=
  fb_get_loop resp attemptSeq 0 []

/-- `fb_get`: resolve the token (raising without issuing any request if
it is missing), then run the retry loop. -/
def fb_get (explicit envAccess envAccessFb envAccessIg : Option String)
    (resp : Nat → HttpResponse) : FbGetRun :=
  match pick_token explicit envAccess envAccessFb envAccessIg with
  | Except.error e => ⟨0, [], Except.error e⟩
  | Except.ok _ => fb_get_run resp

/-! ## Cursor paginator (`paginate` of `graph_api.py` / `fb_api.py`)

One page dict: its `data` array (items kept abstract as numbers; a
missing `data` key is the empty list) and `(page.get("paging") or
{}).get("next")`.  Continuation pages are fetched with a bare
`requests.get(next_url).json()`: the response status is never inspected,
so only a transport failure or a JSON-decode failure can raise there. -/

structure Page where
  data : List Nat
  next : Option String
deriving Repr, DecidableEq

/-- `next_url` guarding the `if not next_url: break`: a missing or empty
continuation URL terminates the loop. -/
def nextUrl (p : Page) : Option String :=
  match p.next with
  | none => none
  | some u => if u = "" then none else some u

/-- What `requests.get(next_url, timeout=60).json()` can do: raise at the
transport layer, fail to parse, or deliver a response with some HTTP
status whose parsed body the code uses without looking at the status. -/
inductive ContFetch
  | netFail
  | badJson
  | response (status : Nat) (page : Page)
deriving Repr, DecidableEq

/-- Errors a pagination run can surface: an error raised by `fb_get` on
the first request, or a transport / JSON failure on a continuation
request. -/
inductive PagErr
  | fb (e : FbError)
  | network
  | badJson
deriving Repr, DecidableEq

inductive PagOutcome
  | finished
  | raised (e : PagErr)
  | fuelOut
deriving Repr, DecidableEq

/-- A pagination run as the consumer sees it: the items yielded, in
order, and how the sequence ended. -/
structure PagRun where
  yielded : List Nat
  outcome : PagOutcome
deriving Repr, DecidableEq

/-- The `while True` loop of `paginate`: yield the current page's items,
read the continuation URL, stop if it is absent, otherwise fetch it and
loop.  `fuel` bounds the number of iterations so the function is total;
an exhausted fuel marks a run that would keep following continuations. -/
def paginate_loop (net : String → ContFetch) : Page → Nat → PagRun
  | _, 0 => ⟨[], PagOutcome.fuelOut⟩
  | p, Nat.succ fuel =>
    match nextUrl p with
    | none => ⟨p.data, PagOutcome.finished⟩
    | some u =>
      match net u with
      | ContFetch.netFail => ⟨p.data, PagOutcome.raised PagErr.network⟩
      | ContFetch.badJson => ⟨p.data, PagOutcome.raised PagErr.badJson⟩
      | ContFetch.response _ q =>
        let r := paginate_loop net q fuel
        ⟨p.data ++ r.yielded, r.outcome⟩

/-- `paginate`: the first page comes from `fb_get` (whose errors
propagate before anything is yielded); then the loop runs. -/
def paginate_run (first : Except FbError Page) (net : String → ContFetch)
    (fuel : Nat) : PagRun :=
  match first with
  | Except.error e => ⟨[], PagOutcome.raised (PagErr.fb e)⟩
  | Except.ok p => paginate_loop net p fuel

/-- Concatenation of the `data` arrays of a list of pages. -/
def itemsOf (ps : List Page) : List Nat :=
  ps.foldr (fun q acc => q.data ++ acc) []

/-- The upstream serves, starting after page `p`, exactly the chain `ps`:
each page's continuation URL is present and fetching it returns the next
page (HTTP 200), and the last page has no continuation. -/
@[reducible]
def servesChain (net : String → ContFetch) : Page → List Page → Prop
  | p, [] => nextUrl p = none
  | p, q :: rest => ∃ u, nextUrl p = some u ∧ net u = ContFetch.response 200 q ∧
      servesChain net q rest

/-! ## Weekly snapshot reducer (`latest_by_iso_week` of `fb_ingest.py`,
also inlined in `ig_ingest.py`)

Calendar dates and `date.isocalendar()` are embedded with the proleptic
Gregorian calendar: `toOrdinal ⟨1, 1, 1⟩ = 1` and that day is a Monday,
as in Python's `datetime.date`. -/

structure CalDate where
  year : Nat
  month : Nat
  day : Nat
deriving Repr, DecidableEq

def isLeap (y : Nat) : Bool :=
  (decide (y % 4 = 0) && decide (¬ y % 100 = 0)) || decide (y % 400 = 0)

def daysInMonth (y m : Nat) : Nat :=
  if m = 2 then (if isLeap y then 29 else 28)
  else if m = 4 ∨ m = 6 ∨ m = 9 ∨ m = 11 then 30
  else 31

def daysBeforeMonth (y m : Nat) : Nat :=
  (List.range (m - 1)).foldl (fun acc i => acc + daysInMonth y (i + 1)) 0

def dayOfYear (d : CalDate) : Nat :=
  daysBeforeMonth d.year d.month + d.day

def daysBeforeYear (y : Nat) : Nat :=
  365 * (y - 1) + ((y - 1) / 4 - (y - 1) / 100) + (y - 1) / 400

def toOrdinal (d : CalDate) : Nat :=
  daysBeforeYear d.year + dayOfYear d

/-- ISO weekday, Monday = 1 .. Sunday = 7. -/
def isoWeekday (d : CalDate) : Nat :=
  (toOrdinal d - 1) % 7 + 1

/-- Raw ISO week number before year-boundary adjustment. -/
def rawWeek (d : CalDate) : Nat :=
  (dayOfYear d + 10 - isoWeekday d) / 7

/-- Number of ISO weeks in year `y` (Dec 28 always lies in the last
week). -/
def weeksInYear (y : Nat) : Nat :=
  rawWeek ⟨y, 12, 28⟩

/-- `date.isocalendar()[:2]`: the ISO (year, week) pair of a date. -/
def isoYearWeek (d : CalDate) : Nat × Nat :=
  let w := rawWeek d
  if w = 0 then (d.year - 1, weeksInYear (d.year - 1))
  else if weeksInYear d.year < w then (d.year + 1, 1)
  else (d.year, w)

/-- Python date comparison `a <= b` (ordinal order). -/
def dateLeB (a b : CalDate) : Bool :=
  decide (toOrdinal a ≤ toOrdinal b)

/-- One entry of the `byweek` dict: `{"fecha": end, "data": data}`.  The
payload (the segment-value mapping) is kept abstract as a number. -/
structure WeekEntry where
  fecha : CalDate
  data : Nat
deriving Repr, DecidableEq

/-- Python dict lookup `byweek[key]` / `key in byweek`. -/
def lookupWeek : List ((Nat × Nat) × WeekEntry) → Nat × Nat → Option WeekEntry
  | [], _ => none
  | (k, e) :: rest, key => if k = key then some e else lookupWeek rest key

/-- Python dict assignment `byweek[key] = e` (replace in place, else
append). -/
def setWeek : List ((Nat × Nat) × WeekEntry) → Nat × Nat → WeekEntry →
    List ((Nat × Nat) × WeekEntry)
  | [], key, e => [(key, e)]
  | (k, e0) :: rest, key, e =>
    if k = key then (k, e) :: rest else (k, e0) :: setWeek rest key e

/-- The loop body of `latest_by_iso_week`:
`if key not in byweek or end >= byweek[key]["fecha"]: byweek[key] = ...`. -/
def weekStep (byweek : List ((Nat × Nat) × WeekEntry)) (pt : CalDate × Nat) :
    List ((Nat × Nat) × WeekEntry) :=
  let key := isoYearWeek pt.1
  match lookupWeek byweek key with
  | none => setWeek byweek key ⟨pt.1, pt.2⟩
  | some e => if dateLeB e.fecha pt.1 then setWeek byweek key ⟨pt.1, pt.2⟩ else byweek

/-- `latest_by_iso_week` of `fb_ingest.py`. -/
def latest_by_iso_week (points : List (CalDate × Nat)) :
    List ((Nat × Nat) × WeekEntry) :=
  points.foldl weekStep []

/-- The week-`key` subsequence of the input points, in iteration order. -/
def weekPointsFor (key : Nat × Nat) (points : List (CalDate × Nat)) :
    List (CalDate × Nat) :=
  points.filter (fun pt => decide (isoYearWeek pt.1 = key))

/-- The selection the reducer is specified to make within one week group:
keep the point with the greatest date, the later-observed one winning an
exact date tie. -/
def stepMax (acc : Option WeekEntry) (pt : CalDate × Nat) : Option WeekEntry :=
  match acc with
  | none => some ⟨pt.1, pt.2⟩
  | some e => if dateLeB e.fecha pt.1 then some ⟨pt.1, pt.2⟩ else some e

/-! ## Audience-segment writer (`insert_segmento_semanal` of
`graph_sql.py`) -/

/-- A stored row of `segmentacion_seguidores_semanal`. -/
structure SegRow where
  plataforma : String
  pagina_id : String
  fecha_corte_semana : Nat
  genero : Option String
  pais : Option String
  ciudad : Option String
  nivel_educacion : Option String
  cantidad_seguidores : Int
deriving Repr, DecidableEq

/-- Modelled from the spec: the table's unique key — its DDL is not in
the repository — is `(platform, page, cutoff date, dimension, dimension
value)`, realised here as all columns except `cantidad_seguidores`. -/
def segSameKey (a b : SegRow) : Bool :=
  decide (a.plataforma = b.plataforma) && decide (a.pagina_id = b.pagina_id) &&
    decide (a.fecha_corte_semana = b.fecha_corte_semana) &&
    decide (a.genero = b.genero) && decide (a.pais = b.pais) &&
    decide (a.ciudad = b.ciudad) && decide (a.nivel_educacion = b.nivel_educacion)

/-- `insert_segmento_semanal` of `graph_sql.py`: plain INSERT with
`ON CONFLICT DO NOTHING` — on a unique-key conflict the incoming row is
silently dropped. -/
def insert_segmento_semanal (db : List SegRow) (plataforma pagina_id : String)
    (fecha_corte : Nat) (genero pais ciudad nivel_edu : Option String)
    (cantidad : Int) : List SegRow :=
  let new : SegRow :=
    ⟨plataforma, pagina_id, fecha_corte, genero, pais, ciudad, nivel_edu, cantidad⟩
  if db.any (fun r => segSameKey r new) then db else db ++ [new]

/-! ## Specification-side characterisations used in claim statements -/

/-- `prevOpt` is the most recent stored record for the entity with a
strictly earlier date (`none` exactly when no such record exists, and on
`some p` no other earlier matching record reaches `p`'s date). -/
@[reducible]
def isLatestPrev (db : List Row) (plataforma pagina_id publicacion_id : String)
    (fecha : Nat) : Option Row → Prop
  | none => ∀ q ∈ db,
      ¬(entityMatches plataforma pagina_id publicacion_id q = true ∧
        q.fecha_descarga < fecha)
  | some p => p ∈ db ∧ entityMatches plataforma pagina_id publicacion_id p = true ∧
      p.fecha_descarga < fecha ∧
      ∀ q ∈ db, entityMatches plataforma pagina_id publicacion_id q = true →
        q.fecha_descarga < fecha → q ≠ p → q.fecha_descarga < p.fecha_descarga

/-- `isLatestPrev` for the `fb_sql.py` table. -/
@[reducible]
def isLatestPrevFB (db : List RowFB) (plataforma pagina_id publicacion_id : String)
    (fecha : Nat) : Option RowFB → Prop
  | none => ∀ q ∈ db,
      ¬(entityMatchesFB plataforma pagina_id publicacion_id q = true ∧
        q.fecha_descarga < fecha)
  | some p => p ∈ db ∧ entityMatchesFB plataforma pagina_id publicacion_id p = true ∧
      p.fecha_descarga < fecha ∧
      ∀ q ∈ db, entityMatchesFB plataforma pagina_id publicacion_id q = true →
        q.fecha_descarga < fecha → q ≠ p → q.fecha_descarga < p.fecha_descarga

/-- A stored row carries the given full key. -/
def hasKey (plataforma pagina_id publicacion_id : String) (fecha : Nat) (r : Row) : Prop :=
  r.plataforma = plataforma ∧ r.pagina_id = pagina_id ∧
    r.publicacion_id = publicacion_id ∧ r.fecha_descarga = fecha

/-- A stored `fb_sql` row carries the given full key. -/
def hasKeyFB (plataforma pagina_id publicacion_id : String) (fecha : Nat) (r : RowFB) : Prop :=
  r.plataforma = plataforma ∧ r.pagina_id = pagina_id ∧
    r.publicacion_id = publicacion_id ∧ r.fecha_descarga = fecha

/-- The value the previous record contributes to a delta: the projected
field, or 0 when there is no previous record. -/
def prevField (prevOpt : Option Row) (f : Row → Int) : Int :=
  match prevOpt with
  | some p => f p
  | none => 0

/-- `prevField` for the `fb_sql.py` table. -/
def prevFieldFB (prevOpt : Option RowFB) (f : RowFB → Int) : Int :=
  match prevOpt with
  | some p => f p
  | none => 0

/-! ## General lemmas -/

theorem selectMaxFecha_mem {α : Type} (f : α → Nat) (l : List α) (b : α)
    (h : selectMaxFecha f l = some b) : b ∈ l := by
  induction l with
  | nil => cases h
  | cons r rs ih =>
    cases hmr : selectMaxFecha f rs with
    | none =>
      simp only [selectMaxFecha, hmr, Option.some.injEq] at h
      subst h
      exact List.mem_cons_self r rs
    | some b' =>
      simp only [selectMaxFecha, hmr] at h
      by_cases hlt : f r < f b'
      · rw [if_pos hlt, Option.some.injEq] at h
        subst h
        exact List.mem_cons_of_mem r (ih hmr)
      · rw [if_neg hlt, Option.some.injEq] at h
        subst h
        exact List.mem_cons_self r rs

theorem selectMaxFecha_unique {α : Type} (f : α → Nat) (l : List α) (p : α)
    (hp : p ∈ l) (hmax : ∀ q ∈ l, q ≠ p → f q < f p) :
    selectMaxFecha f l = some p := by
  induction l with
  | nil => cases hp
  | cons r rs ih =>
    rcases List.mem_cons.mp hp with hpr | hprs
    · rw [← hpr] at hmax ⊢
      cases hmr : selectMaxFecha f rs with
      | none => simp [selectMaxFecha, hmr]
      | some b =>
        have hb : b ∈ rs := selectMaxFecha_mem f rs b hmr
        simp only [selectMaxFecha, hmr]
        by_cases hbp : b = p
        · rw [hbp, if_neg (lt_irrefl (f p))]
        · have hblt := hmax b (List.mem_cons_of_mem p hb) hbp
          rw [if_neg (Nat.not_lt.mpr (Nat.le_of_lt hblt))]
    · have hrs : selectMaxFecha f rs = some p :=
        ih hprs (fun q hq hqp => hmax q (List.mem_cons_of_mem r hq) hqp)
      simp only [selectMaxFecha, hrs]
      by_cases hrp : r = p
      · subst hrp
        rw [if_neg (lt_irrefl (f r))]
      · rw [if_pos (hmax r (List.mem_cons_self r rs) hrp)]

theorem mem_upsertBy_new {α : Type} (key : α → α → Bool) (db : List α) (new : α) :
    new ∈ upsertBy key db new := by
  unfold upsertBy
  by_cases hany : db.any (fun r => key r new) = true
  · rw [if_pos hany]
    obtain ⟨r0, hr0, hk⟩ := List.any_eq_true.mp hany
    exact List.mem_map.mpr ⟨r0, hr0, by rw [if_pos hk]⟩
  · rw [if_neg hany]
    exact List.mem_append.mpr (Or.inr (List.mem_singleton.mpr rfl))

theorem upsertBy_keyed_eq {α : Type} (key : α → α → Bool) (db : List α) (new : α) :
    ∀ r ∈ upsertBy key db new, key r new = true → r = new := by
  intro r hr hk
  unfold upsertBy at hr
  by_cases hany : db.any (fun r => key r new) = true
  · rw [if_pos hany] at hr
    obtain ⟨a, _, hga⟩ := List.mem_map.mp hr
    by_cases hka : key a new = true
    · rw [if_pos hka] at hga; exact hga.symm
    · rw [if_neg hka] at hga
      subst hga; exact absurd hk hka
  · rw [if_neg hany] at hr
    rcases List.mem_append.mp hr with h1 | h2
    · have hall := List.any_eq_false.mp (Bool.eq_false_iff.mpr hany)
      exact absurd hk (by simpa using hall r h1)
    · exact List.mem_singleton.mp h2

theorem map_self_of_mem {α : Type} (g : α → α) (l : List α) (h : ∀ r ∈ l, g r = r) :
    l.map g = l := by
  induction l with
  | nil => rfl
  | cons a t ih =>
    rw [List.map_cons, h a (List.mem_cons_self a t),
      ih (fun r hr => h r (List.mem_cons_of_mem a hr))]

theorem upsertBy_idem {α : Type} (key : α → α → Bool) (db : List α) (new : α)
    (hnew : key new new = true) :
    upsertBy key (upsertBy key db new) new = upsertBy key db new := by
  have hany : (upsertBy key db new).any (fun r => key r new) = true :=
    List.any_eq_true.mpr ⟨new, mem_upsertBy_new key db new, hnew⟩
  conv_lhs => rw [upsertBy]
  rw [if_pos hany]
  refine map_self_of_mem _ _ (fun r hr => ?_)
  by_cases hk : key r new = true
  · rw [if_pos hk]
    exact (upsertBy_keyed_eq key db new r hr hk).symm
  · rw [if_neg hk]

theorem filter_map_overwrite {α : Type} (key : α → α → Bool) (P : α → Bool) (new : α)
    (hnew : P new = false) (hkey : ∀ r, key r new = true → P r = false) :
    ∀ db : List α, (db.map (fun r => if key r new then new else r)).filter P = db.filter P := by
  intro db
  induction db with
  | nil => rfl
  | cons a t ih =>
    rw [List.map_cons, List.filter_cons, List.filter_cons]
    by_cases hka : key a new = true
    · rw [if_pos hka, hnew, hkey a hka]
      exact ih
    · rw [if_neg hka]
      cases hPa : P a with
      | false => exact ih
      | true => rw [ih]

theorem filter_upsertBy {α : Type} (key : α → α → Bool) (P : α → Bool) (db : List α) (new : α)
    (hnew : P new = false) (hkey : ∀ r, key r new = true → P r = false) :
    (upsertBy key db new).filter P = db.filter P := by
  unfold upsertBy
  by_cases hany : db.any (fun r => key r new) = true
  · rw [if_pos hany]
    exact filter_map_overwrite key P new hnew hkey db
  · rw [if_neg hany, List.filter_append, List.filter_cons, hnew]
    simp

theorem ultimo_registro_prev_eq (db : List Row) (pla pag pub : String) (fecha : Nat)
    (prevOpt : Option Row) (h : isLatestPrev db pla pag pub fecha prevOpt) :
    ultimo_registro_prev db pla pag pub fecha = prevOpt.map prevTuple := by
  cases prevOpt with
  | none =>
    have hnil : prevQuery db pla pag pub fecha = [] := by
      rw [prevQuery, List.filter_eq_nil_iff]
      intro q hq hcontra
      obtain ⟨hem, hdec⟩ := Bool.and_eq_true_iff.mp hcontra
      exact h q hq ⟨hem, of_decide_eq_true hdec⟩
    rw [ultimo_registro_prev, hnil]
    rfl
  | some p =>
    have hsel : selectMaxFecha Row.fecha_descarga (prevQuery db pla pag pub fecha) = some p := by
      apply selectMaxFecha_unique
      · exact List.mem_filter.mpr
          ⟨h.1, Bool.and_eq_true_iff.mpr ⟨h.2.1, decide_eq_true h.2.2.1⟩⟩
      · intro q hq hqp
        obtain ⟨hqdb, hpred⟩ := List.mem_filter.mp hq
        obtain ⟨hem, hlt⟩ := Bool.and_eq_true_iff.mp hpred
        exact h.2.2.2 q hqdb hem (of_decide_eq_true hlt) hqp
    rw [ultimo_registro_prev, hsel]

theorem ultimo_registro_prev_fb_eq (db : List RowFB) (pla pag pub : String) (fecha : Nat)
    (prevOpt : Option RowFB) (h : isLatestPrevFB db pla pag pub fecha prevOpt) :
    ultimo_registro_prev_fb db pla pag pub fecha = prevOpt.map prevTupleFB := by
  cases prevOpt with
  | none =>
    have hnil : prevQueryFB db pla pag pub fecha = [] := by
      rw [prevQueryFB, List.filter_eq_nil_iff]
      intro q hq hcontra
      obtain ⟨hem, hdec⟩ := Bool.and_eq_true_iff.mp hcontra
      exact h q hq ⟨hem, of_decide_eq_true hdec⟩
    rw [ultimo_registro_prev_fb, hnil]
    rfl
  | some p =>
    have hsel : selectMaxFecha RowFB.fecha_descarga (prevQueryFB db pla pag pub fecha) = some p := by
      apply selectMaxFecha_unique
      · exact List.mem_filter.mpr
          ⟨h.1, Bool.and_eq_true_iff.mpr ⟨h.2.1, decide_eq_true h.2.2.1⟩⟩
      · intro q hq hqp
        obtain ⟨hqdb, hpred⟩ := List.mem_filter.mp hq
        obtain ⟨hem, hlt⟩ := Bool.and_eq_true_iff.mp hpred
        exact h.2.2.2 q hqdb hem (of_decide_eq_true hlt) hqp
    rw [ultimo_registro_prev_fb, hsel]

theorem deltaOf_map_prevTuple (m : MDict) (prevOpt : Option Row) (key : String)
    (idx : Nat) (f : Row → Int) (hidx : ∀ p, (prevTuple p).getD idx 0 = f p) :
    deltaOf m (prevOpt.map prevTuple) key idx = mgetD m key 0 - prevField prevOpt f := by
  cases prevOpt with
  | none => rfl
  | some p =>
    have hred : deltaOf m ((some p).map prevTuple) key idx
        = mgetD m key 0 - (prevTuple p).getD idx 0 := rfl
    rw [hred, hidx p]
    rfl

theorem deltaOf_map_prevTupleFB (m : MDict) (prevOpt : Option RowFB) (key : String)
    (idx : Nat) (f : RowFB → Int) (hidx : ∀ p, (prevTupleFB p).getD idx 0 = f p) :
    deltaOf m (prevOpt.map prevTupleFB) key idx = mgetD m key 0 - prevFieldFB prevOpt f := by
  cases prevOpt with
  | none => rfl
  | some p =>
    have hred : deltaOf m ((some p).map prevTupleFB) key idx
        = mgetD m key 0 - (prevTupleFB p).getD idx 0 := rfl
    rw [hred, hidx p]
    rfl

/-- Upserting a row whose date equals the incoming date leaves the
previous-record lookup unchanged: the lookup only considers strictly
earlier dates, and the conflict key pins the date of any overwritten
row. -/
theorem upsert_diaria_prev_stable (db : List Row) (pla pag pub : String) (fecha : Nat)
    (new : Row) (hfecha : new.fecha_descarga = fecha) :
    ultimo_registro_prev (upsertBy sameKey db new) pla pag pub fecha =
      ultimo_registro_prev db pla pag pub fecha := by
  have hnew : (entityMatches pla pag pub new && decide (new.fecha_descarga < fecha)) = false := by
    rw [hfecha]
    simp
  have hkey : ∀ r : Row, sameKey r new = true →
      (entityMatches pla pag pub r && decide (r.fecha_descarga < fecha)) = false := by
    intro r hkr
    simp only [sameKey, Bool.and_eq_true, decide_eq_true_eq] at hkr
    rw [hkr.2, hfecha]
    simp
  simp only [ultimo_registro_prev, prevQuery]
  rw [filter_upsertBy sameKey _ db new hnew hkey]

theorem upsert_diaria_delta_spec (db : List Row) (pla pag pub : String) (fecha : Nat)
    (m : MDict) (prevOpt : Option Row) (h : isLatestPrev db pla pag pub fecha prevOpt) :
    (∃ r ∈ upsert_metricas_publicacion_diaria db pla pag pub fecha m,
        hasKey pla pag pub fecha r) ∧
    ∀ r ∈ upsert_metricas_publicacion_diaria db pla pag pub fecha m,
      hasKey pla pag pub fecha r →
        r.delta_visualizaciones =
            mgetD m "visualizaciones" 0 - prevField prevOpt Row.visualizaciones ∧
        r.delta_alcance = mgetD m "alcance" 0 - prevField prevOpt Row.alcance ∧
        r.delta_comentarios = mgetD m "comentarios" 0 - prevField prevOpt Row.comentarios ∧
        r.delta_compartidos = mgetD m "compartidos" 0 - prevField prevOpt Row.compartidos ∧
        r.delta_guardados = mgetD m "guardados" 0 - prevField prevOpt Row.guardados := by
  have hu : ultimo_registro_prev db pla pag pub fecha = prevOpt.map prevTuple :=
    ultimo_registro_prev_eq db pla pag pub fecha prevOpt h
  simp only [upsert_metricas_publicacion_diaria, hu]
  constructor
  · exact ⟨buildRow pla pag pub fecha m (prevOpt.map prevTuple),
      mem_upsertBy_new sameKey db _, rfl, rfl, rfl, rfl⟩
  · intro r hr hk
    have hkb : sameKey r (buildRow pla pag pub fecha m (prevOpt.map prevTuple)) = true := by
      simp [sameKey, buildRow, hk.1, hk.2.1, hk.2.2.1, hk.2.2.2]
    have hr_eq := upsertBy_keyed_eq sameKey db _ r hr hkb
    subst hr_eq
    exact ⟨deltaOf_map_prevTuple m prevOpt "visualizaciones" 0 Row.visualizaciones (fun p => rfl),
      deltaOf_map_prevTuple m prevOpt "alcance" 1 Row.alcance (fun p => rfl),
      deltaOf_map_prevTuple m prevOpt "comentarios" 3 Row.comentarios (fun p => rfl),
      deltaOf_map_prevTuple m prevOpt "compartidos" 4 Row.compartidos (fun p => rfl),
      deltaOf_map_prevTuple m prevOpt "guardados" 5 Row.guardados (fun p => rfl)⟩

theorem upsert_diaria_fb_delta_spec (db : List RowFB) (pla pag pub : String) (fecha : Nat)
    (m : MDict) (prevOpt : Option RowFB) (h : isLatestPrevFB db pla pag pub fecha prevOpt) :
    (∃ r ∈ upsert_metricas_publicacion_diaria_fb db pla pag pub fecha m,
        hasKeyFB pla pag pub fecha r) ∧
    ∀ r ∈ upsert_metricas_publicacion_diaria_fb db pla pag pub fecha m,
      hasKeyFB pla pag pub fecha r →
        r.delta_visualizaciones =
            mgetD m "visualizaciones" 0 - prevFieldFB prevOpt RowFB.visualizaciones ∧
        r.delta_alcance = mgetD m "alcance" 0 - prevFieldFB prevOpt RowFB.alcance ∧
        r.delta_reacciones = mgetD m "reacciones" 0 - prevFieldFB prevOpt RowFB.reacciones ∧
        r.delta_comentarios = mgetD m "comentarios" 0 - prevFieldFB prevOpt RowFB.comentarios ∧
        r.delta_compartidos = mgetD m "compartidos" 0 - prevFieldFB prevOpt RowFB.compartidos ∧
        r.delta_guardados = mgetD m "guardados" 0 - prevFieldFB prevOpt RowFB.guardados := by
  have hu : ultimo_registro_prev_fb db pla pag pub fecha = prevOpt.map prevTupleFB :=
    ultimo_registro_prev_fb_eq db pla pag pub fecha prevOpt h
  simp only [upsert_metricas_publicacion_diaria_fb, hu]
  constructor
  · exact ⟨buildRowFB pla pag pub fecha m (prevOpt.map prevTupleFB),
      mem_upsertBy_new sameKeyFB db _, rfl, rfl, rfl, rfl⟩
  · intro r hr hk
    have hkb : sameKeyFB r (buildRowFB pla pag pub fecha m (prevOpt.map prevTupleFB)) = true := by
      simp [sameKeyFB, buildRowFB, hk.1, hk.2.1, hk.2.2.1, hk.2.2.2]
    have hr_eq := upsertBy_keyed_eq sameKeyFB db _ r hr hkb
    subst hr_eq
    exact ⟨deltaOf_map_prevTupleFB m prevOpt "visualizaciones" 0 RowFB.visualizaciones (fun p => rfl),
      deltaOf_map_prevTupleFB m prevOpt "alcance" 1 RowFB.alcance (fun p => rfl),
      deltaOf_map_prevTupleFB m prevOpt "reacciones" 3 RowFB.reacciones (fun p => rfl),
      deltaOf_map_prevTupleFB m prevOpt "comentarios" 4 RowFB.comentarios (fun p => rfl),
      deltaOf_map_prevTupleFB m prevOpt "compartidos" 5 RowFB.compartidos (fun p => rfl),
      deltaOf_map_prevTupleFB m prevOpt "guardados" 6 RowFB.guardados (fun p => rfl)⟩

/-! ## Claim theorems -/

/-- C1: for every call to the daily delta/upsert engine
(`upsert_metricas_publicacion_diaria`, in both its `graph_sql.py` and its
`fb_sql.py` version) with metric mapping `m` and key (platform, page,
publication, download date), each stored delta field of the row written
under that key equals `m`'s value for the corresponding field — 0 when
the field is absent from `m` — minus the corresponding value of the most
recent stored record for the same (platform, page, publication) with a
strictly earlier date, or minus 0 when no such earlier record exists. -/
theorem claim1_daily_delta_vs_previous
    (db : List Row) (pla pag pub : String) (fecha : Nat) (m : MDict)
    (prevOpt : Option Row) (h : isLatestPrev db pla pag pub fecha prevOpt)
    (dbf : List RowFB) (plaf pagf pubf : String) (fechaf : Nat) (mf : MDict)
    (prevOptF : Option RowFB) (hf : isLatestPrevFB dbf plaf pagf pubf fechaf prevOptF) :
    ((∃ r ∈ upsert_metricas_publicacion_diaria db pla pag pub fecha m,
        hasKey pla pag pub fecha r) ∧
      ∀ r ∈ upsert_metricas_publicacion_diaria db pla pag pub fecha m,
        hasKey pla pag pub fecha r →
          r.delta_visualizaciones =
              mgetD m "visualizaciones" 0 - prevField prevOpt Row.visualizaciones ∧
          r.delta_alcance = mgetD m "alcance" 0 - prevField prevOpt Row.alcance ∧
          r.delta_comentarios = mgetD m "comentarios" 0 - prevField prevOpt Row.comentarios ∧
          r.delta_compartidos = mgetD m "compartidos" 0 - prevField prevOpt Row.compartidos ∧
          r.delta_guardados = mgetD m "guardados" 0 - prevField prevOpt Row.guardados) ∧
    ((∃ r ∈ upsert_metricas_publicacion_diaria_fb dbf plaf pagf pubf fechaf mf,
        hasKeyFB plaf pagf pubf fechaf r) ∧
      ∀ r ∈ upsert_metricas_publicacion_diaria_fb dbf plaf pagf pubf fechaf mf,
        hasKeyFB plaf pagf pubf fechaf r →
          r.delta_visualizaciones =
              mgetD mf "visualizaciones" 0 - prevFieldFB prevOptF RowFB.visualizaciones ∧
          r.delta_alcance = mgetD mf "alcance" 0 - prevFieldFB prevOptF RowFB.alcance ∧
          r.delta_reacciones = mgetD mf "reacciones" 0 - prevFieldFB prevOptF RowFB.reacciones ∧
          r.delta_comentarios =
              mgetD mf "comentarios" 0 - prevFieldFB prevOptF RowFB.comentarios ∧
          r.delta_compartidos =
              mgetD mf "compartidos" 0 - prevFieldFB prevOptF RowFB.compartidos ∧
          r.delta_guardados = mgetD mf "guardados" 0 - prevFieldFB prevOptF RowFB.guardados) :=
  ⟨upsert_diaria_delta_spec db pla pag pub fecha m prevOpt h,
    upsert_diaria_fb_delta_spec dbf plaf pagf pubf fechaf mf prevOptF hf⟩

/-- Concrete prior row used by the C1 witness. -/
def rowPrevW : Row :=
  ⟨"facebook", "pg", "p1", 1, 100, 50, 80, none, 5, 2, 1, 0, none, 100, 50, 5, 2, 1⟩

/-- Concrete metric mapping used by the C1 witness. -/
def mW : MDict := [("visualizaciones", 140), ("comentarios", 5)]

/-- Witness for C1: a store with one earlier record for the entity
satisfies the latest-previous hypothesis, and the upserted row exists
under the incoming key. -/
theorem claim1_daily_delta_vs_previous_witness :
    isLatestPrev [rowPrevW] "facebook" "pg" "p1" 2 (some rowPrevW) ∧
    ∃ r ∈ upsert_metricas_publicacion_diaria [rowPrevW] "facebook" "pg" "p1" 2 mW,
      hasKey "facebook" "pg" "p1" 2 r :=
  ⟨by decide,
    (claim1_daily_delta_vs_previous [rowPrevW] "facebook" "pg" "p1" 2 mW
      (some rowPrevW) (by decide) [] "fb" "pg" "p1" 1 [] none (by decide)).1.1⟩

/-- With every response in the attempt list rate-limited, the loop
consumes all attempts, sleeping `2 ^ attempt` after each, and raises the
persistent-rate-limit error. -/
theorem fb_get_loop_all_rl (resp : Nat → HttpResponse) (l : List Nat)
    (h : ∀ a ∈ l, (resp a).status = 429 ∨ (resp a).status = 613) :
    ∀ reqs sleeps, fb_get_loop resp l reqs sleeps =
      ⟨reqs + l.length, sleeps ++ l.map (fun a => 2 ^ a),
        Except.error FbError.rateLimitPersistente⟩ := by
  induction l with
  | nil =>
    intro reqs sleeps
    simp [fb_get_loop]
  | cons a t ih =>
    intro reqs sleeps
    have ha := h a (List.mem_cons_self a t)
    have ha200 : ¬ (resp a).status = 200 := by rcases ha with h1 | h1 <;> omega
    simp only [fb_get_loop]
    rw [if_neg ha200, if_pos ha]
    rw [ih (fun b hb => h b (List.mem_cons_of_mem a hb))]
    simp [List.append_assoc]
    omega

/-- With the responses before position `k` rate-limited and the response
at `k` neither 200 nor rate-limited, the loop raises the upstream error
right after the `k`-th request, having slept only for the earlier
rate-limited responses. -/
theorem fb_get_loop_bad (resp : Nat → HttpResponse) (l1 : List Nat) (k : Nat) (l2 : List Nat)
    (hrl : ∀ a ∈ l1, (resp a).status = 429 ∨ (resp a).status = 613)
    (h200 : ¬ (resp k).status = 200)
    (hbad : ¬ ((resp k).status = 429 ∨ (resp k).status = 613)) :
    ∀ reqs sleeps, fb_get_loop resp (l1 ++ k :: l2) reqs sleeps =
      ⟨reqs + l1.length + 1, sleeps ++ l1.map (fun a => 2 ^ a),
        Except.error (FbError.upstream (resp k).status (resp k).body)⟩ := by
  induction l1 with
  | nil =>
    intro reqs sleeps
    simp only [List.nil_append, fb_get_loop]
    rw [if_neg h200, if_neg hbad]
    simp
  | cons a t ih =>
    intro reqs sleeps
    have ha := hrl a (List.mem_cons_self a t)
    have ha200 : ¬ (resp a).status = 200 := by rcases ha with h1 | h1 <;> omega
    simp only [List.cons_append, fb_get_loop]
    rw [if_neg ha200, if_pos ha]
    simp only [List.append_eq]
    rw [ih (fun b hb => hrl b (List.mem_cons_of_mem a hb))]
    simp [List.append_assoc]
    omega

/-- C3 counterexample: when every response is a rate limit, `fb_get`
issues exactly 5 requests — there is never a 6th rate-limit response; the
failure surfaces after the 5th. -/
theorem claim3_sixth_response_counterexample :
    (fb_get_run (fun _ => ⟨429, "rate limited"⟩)).requests = 5 ∧
    ¬ (fb_get_run (fun _ => ⟨429, "rate limited"⟩)).requests = 6 ∧
    (fb_get_run (fun _ => ⟨429, "rate limited"⟩)).result =
      Except.error FbError.rateLimitPersistente := by decide

/-- C3 (amended): when every response is a rate limit (HTTP 429 or
vendor code 613), `fb_get` issues exactly 5 requests (the initial one
plus 4 retries), sleeping `2 ^ attempt` seconds after each rate-limited
response — 1, 2, 4, 8, 16, strictly increasing — and the 5th consecutive
rate-limit response exhausts the budget, surfacing the persistent
rate-limit failure to the caller without a 6th request. -/
theorem claim3_rate_limit_budget (resp : Nat → HttpResponse)
    (h : ∀ n, (resp n).status = 429 ∨ (resp n).status = 613) :
    fb_get_run resp = ⟨5, [1, 2, 4, 8, 16], Except.error FbError.rateLimitPersistente⟩ ∧
    List.Chain' (fun a b => a < b) (fb_get_run resp).sleeps := by
  have hrun : fb_get_run resp =
      ⟨0 + attemptSeq.length, [] ++ attemptSeq.map (fun a => 2 ^ a),
        Except.error FbError.rateLimitPersistente⟩ :=
    fb_get_loop_all_rl resp attemptSeq (fun a _ => h a) 0 []
  rw [hrun]
  refine ⟨rfl, ?_⟩
  show List.Chain' (fun a b => a < b) [1, 2, 4, 8, 16]
  simp [List.chain'_cons]

/-- Witness for C3: the all-429 response stream exhausts the budget with
the sleep schedule 1, 2, 4, 8, 16. -/
theorem claim3_rate_limit_budget_witness :
    fb_get_run (fun _ => ⟨429, "limit"⟩) =
      ⟨5, [1, 2, 4, 8, 16], Except.error FbError.rateLimitPersistente⟩ :=
  (claim3_rate_limit_budget (fun _ => ⟨429, "limit"⟩) (fun _ => Or.inl rfl)).1

/-- C8: when `fb_get` receives a response whose status is neither 200
nor a rate-limit code (429/613) — after any number of rate-limited
responses — it raises the upstream error carrying that status and body
immediately: no further request is issued and no sleep follows the
offending response (the sleeps are exactly those of the earlier
rate-limited responses). -/
theorem claim8_upstream_error_immediate (resp : Nat → HttpResponse) (k : Nat) (hk : k < 5)
    (hrl : ∀ j, j < k → (resp j).status = 429 ∨ (resp j).status = 613)
    (h200 : ¬ (resp k).status = 200)
    (hbad : ¬ ((resp k).status = 429 ∨ (resp k).status = 613)) :
    fb_get_run resp =
      ⟨k + 1, (List.range k).map (fun a => 2 ^ a),
        Except.error (FbError.upstream (resp k).status (resp k).body)⟩ := by
  have hdecomp : attemptSeq = List.range k ++ k :: List.range' (k + 1) (4 - k) := by
    interval_cases k <;> rfl
  rw [fb_get_run, hdecomp,
    fb_get_loop_bad resp (List.range k) k _ (fun a ha => hrl a (List.mem_range.mp ha))
      h200 hbad 0 []]
  simp

/-- Witness for C8: a 500 response on the first request raises the
upstream error at once, with no sleep and a single request issued. -/
theorem claim8_upstream_error_immediate_witness :
    fb_get_run (fun _ => ⟨500, "server error"⟩) =
      ⟨1, [], Except.error (FbError.upstream 500 "server error")⟩ :=
  claim8_upstream_error_immediate (fun _ => ⟨500, "server error"⟩) 0 (by decide)
    (fun j hj => absurd hj (Nat.not_lt_zero j)) (by decide) (by decide)

/-- `tokenOrFail` fails exactly on a falsy token. -/
theorem tokenOrFail_err_iff (t : Option String) :
    tokenOrFail t = Except.error FbError.missingToken ↔ strFalsy t = true := by
  cases t with
  | none => simp [tokenOrFail, strFalsy]
  | some s =>
    by_cases h : s = ""
    · simp [tokenOrFail, strFalsy, h]
    · simp [tokenOrFail, strFalsy, h]

/-- Falsiness distributes over the Python `or`. -/
theorem strFalsy_pyOr (a b : Option String) :
    strFalsy (pyOr a b) = (strFalsy a && strFalsy b) := by
  by_cases h : strFalsy a = true
  · simp [pyOr, h]
  · simp [pyOr, h, Bool.eq_false_iff.mpr h]

/-- C10: `_pick_token` treats an explicit empty-string token exactly
like an absent one — it falls through to the `ACCESS_TOKEN`,
`ACCESS_TOKEN_FB`, `ACCESS_TOKEN_IG` environment values in that order,
and fails with the missing-credential error exactly when all candidates
are empty or absent; in particular an explicit empty token succeeds when
an environment token is set. -/
theorem claim10_empty_token_fallback (envAccess envAccessFb envAccessIg : Option String) :
    pick_token (some "") envAccess envAccessFb envAccessIg =
      pick_token none envAccess envAccessFb envAccessIg ∧
    (pick_token (some "") envAccess envAccessFb envAccessIg =
        Except.error FbError.missingToken ↔
      strFalsy envAccess = true ∧ strFalsy envAccessFb = true ∧
        strFalsy envAccessIg = true) ∧
    pick_token (some "") (some "envtok") none none = Except.ok "envtok" := by
  refine ⟨rfl, ?_, rfl⟩
  rw [pick_token, tokenOrFail_err_iff, strFalsy_pyOr, strFalsy_pyOr, strFalsy_pyOr]
  simp [strFalsy]

/-- C6 counterexample: called with the platform key missing, the daily
upsert engine still returns successfully, issuing the previous-record
lookup first and the insert second — it does not fail with the
`InvalidRecord` validation error before any statement is issued. -/
theorem claim6_no_validation_counterexample :
    upsert_diaria_checked [] none (some "pg") (some "p1") (some 2) [] =
      Except.ok ([SqlStmt.selectUltimoPrev, SqlStmt.insertMetricas], none) ∧
    ¬ upsert_diaria_checked [] none (some "pg") (some "p1") (some 2) [] =
        Except.error IngestErr.invalidRecord := by decide

/-- C6 (amended): the daily upsert engine performs no key validation:
with the platform key missing it never raises `InvalidRecord`; the
previous-record lookup statement is issued first regardless (matching no
rows under SQL NULL comparison) and the insert statement follows. -/
theorem claim6_lookup_issued_without_validation (db : List Row)
    (pag pub : Option String) (fecha : Option Nat) (m : MDict) :
    upsert_diaria_checked db none pag pub fecha m =
      Except.ok ([SqlStmt.selectUltimoPrev, SqlStmt.insertMetricas], none) := by
  have hfil : db.filter (fun r => entityMatchesOpt none pag pub r && fechaLtOpt r fecha) = [] := by
    rw [List.filter_eq_nil_iff]
    intro q hq
    simp [entityMatchesOpt]
  simp only [upsert_diaria_checked]
  rw [hfil]
  rfl

/-- Items of a chain of pages are yielded in full and in order. -/
theorem paginate_loop_chain (net : String → ContFetch) :
    ∀ (ps : List Page) (p : Page), servesChain net p ps → ∀ fuel, ps.length < fuel →
      paginate_loop net p fuel = ⟨itemsOf (p :: ps), PagOutcome.finished⟩ := by
  intro ps
  induction ps with
  | nil =>
    intro p h fuel hf
    cases fuel with
    | zero => omega
    | succ f =>
      simp only [paginate_loop, h]
      simp [itemsOf]
  | cons q rest ih =>
    intro p h fuel hf
    obtain ⟨u, hu, hnet, hchain⟩ := h
    cases fuel with
    | zero => omega
    | succ f =>
      simp only [paginate_loop, hu, hnet]
      rw [ih q hchain f (by simpa using hf)]
      simp [itemsOf]

/-- The number of items in a chain of pages is the sum of the page
sizes. -/
theorem itemsOf_length (ps : List Page) :
    (itemsOf ps).length = (ps.map (fun q => q.data.length)).sum := by
  induction ps with
  | nil => rfl
  | cons q t ih =>
    show (q.data ++ itemsOf t).length = _
    simp [ih]

/-- C4: for a bounded upstream collection served as a finite chain of
pages, `paginate` yields exactly the items of all pages — pages in fetch
order along the `paging.next` continuation, items in array order within
each page, totalling the sum of the page sizes — and the sequence
terminates when a page carries no continuation pointer. -/
theorem claim4_paginate_yields_all (net : String → ContFetch) (p : Page) (ps : List Page)
    (h : servesChain net p ps) (fuel : Nat) (hfuel : ps.length < fuel) :
    paginate_run (Except.ok p) net fuel = ⟨itemsOf (p :: ps), PagOutcome.finished⟩ ∧
    (paginate_run (Except.ok p) net fuel).yielded.length =
      p.data.length + (ps.map (fun q => q.data.length)).sum := by
  have hrun : paginate_run (Except.ok p) net fuel = ⟨itemsOf (p :: ps), PagOutcome.finished⟩ :=
    paginate_loop_chain net ps p h fuel hfuel
  refine ⟨hrun, ?_⟩
  rw [hrun]
  show (itemsOf (p :: ps)).length = _
  rw [itemsOf_length]
  simp

/-- Two-page upstream used by the C4 and C7 witnesses. -/
def netW : String → ContFetch := fun u =>
  if u = "u2" then ContFetch.response 200 ⟨[3], none⟩ else ContFetch.netFail

/-- Witness for C4: a two-page chain of sizes 2 and 1 yields its three
items in order and finishes. -/
theorem claim4_paginate_yields_all_witness :
    paginate_run (Except.ok ⟨[1, 2], some "u2"⟩) netW 2 =
      ⟨[1, 2, 3], PagOutcome.finished⟩ :=
  (claim4_paginate_yields_all netW ⟨[1, 2], some "u2"⟩ [⟨[3], none⟩]
    ⟨"u2", rfl, rfl, rfl⟩ 2 (by decide)).1

/-- C7 counterexample: a continuation fetch answered with HTTP 500 and a
JSON error body does not surface an error — the parsed body is treated
as a page with no items and no continuation, so the run ends `finished`
after silently yielding only the first page's items. -/
theorem claim7_silent_non2xx_counterexample :
    paginate_run (Except.ok ⟨[7], some "u1"⟩)
        (fun _ => ContFetch.response 500 ⟨[], none⟩) 5 =
      ⟨[7], PagOutcome.finished⟩ := by decide

/-- C7 (amended): an error of the first fetch (raised inside `fb_get`)
propagates before anything is yielded; on a continuation fetch only a
transport failure or a JSON-decode failure propagates (terminating the
sequence after the items yielded so far); a continuation response with a
JSON body is consumed as the next page whatever its HTTP status — a
non-2xx status there raises nothing. -/
theorem claim7_fetch_failure_propagation :
    (∀ (e : FbError) (net : String → ContFetch) (fuel : Nat),
      paginate_run (Except.error e) net fuel = ⟨[], PagOutcome.raised (PagErr.fb e)⟩) ∧
    (∀ (net : String → ContFetch) (p : Page) (u : String) (fuel : Nat),
      nextUrl p = some u → net u = ContFetch.netFail →
      paginate_loop net p (fuel + 1) = ⟨p.data, PagOutcome.raised PagErr.network⟩) ∧
    (∀ (net : String → ContFetch) (p : Page) (u : String) (fuel : Nat),
      nextUrl p = some u → net u = ContFetch.badJson →
      paginate_loop net p (fuel + 1) = ⟨p.data, PagOutcome.raised PagErr.badJson⟩) ∧
    (∀ (net : String → ContFetch) (p : Page) (u : String) (s : Nat) (q : Page) (fuel : Nat),
      nextUrl p = some u → net u = ContFetch.response s q →
      paginate_loop net p (fuel + 1) =
        ⟨p.data ++ (paginate_loop net q fuel).yielded, (paginate_loop net q fuel).outcome⟩) := by
  refine ⟨fun e net fuel => rfl, ?_, ?_, ?_⟩
  · intro net p u fuel hu hnet
    simp only [paginate_loop, hu, hnet]
  · intro net p u fuel hu hnet
    simp only [paginate_loop, hu, hnet]
  · intro net p u s q fuel hu hnet
    simp only [paginate_loop, hu, hnet]

/-- Witness for C7: a first-fetch error propagates as such, and a
transport failure on a continuation fetch raises after the first page's
items. -/
theorem claim7_fetch_failure_propagation_witness :
    paginate_run (Except.error FbError.rateLimitPersistente) netW 3 =
      ⟨[], PagOutcome.raised (PagErr.fb FbError.rateLimitPersistente)⟩ ∧
    paginate_loop netW ⟨[4], some "bad"⟩ 1 = ⟨[4], PagOutcome.raised PagErr.network⟩ :=
  ⟨claim7_fetch_failure_propagation.1 FbError.rateLimitPersistente netW 3,
    claim7_fetch_failure_propagation.2.1 netW ⟨[4], some "bad"⟩ "bad" 0 rfl rfl⟩

theorem dateLeB_refl (a : CalDate) : dateLeB a a = true := by
  simp [dateLeB]

theorem dateLeB_trans (a b c : CalDate) (h1 : dateLeB a b = true) (h2 : dateLeB b c = true) :
    dateLeB a c = true := by
  simp only [dateLeB, decide_eq_true_eq] at h1 h2 ⊢
  omega

theorem dateLeB_of_not (a b : CalDate) (h : ¬ dateLeB a b = true) : dateLeB b a = true := by
  simp only [dateLeB, decide_eq_true_eq] at h ⊢
  omega

theorem lookupWeek_setWeek_self (l : List ((Nat × Nat) × WeekEntry)) (key : Nat × Nat)
    (e : WeekEntry) : lookupWeek (setWeek l key e) key = some e := by
  induction l with
  | nil => simp [setWeek, lookupWeek]
  | cons he t ih =>
    obtain ⟨k, e0⟩ := he
    by_cases h : k = key
    · simp [setWeek, lookupWeek, h]
    · simp [setWeek, lookupWeek, h, ih]

theorem lookupWeek_setWeek_other (l : List ((Nat × Nat) × WeekEntry)) (key k2 : Nat × Nat)
    (e : WeekEntry) (h : ¬ k2 = key) :
    lookupWeek (setWeek l key e) k2 = lookupWeek l k2 := by
  have hsymm : ¬ key = k2 := fun hc => h hc.symm
  induction l with
  | nil => simp [setWeek, lookupWeek, hsymm]
  | cons he t ih =>
    obtain ⟨k, e0⟩ := he
    by_cases hk : k = key
    · subst hk
      simp [setWeek, lookupWeek, hsymm]
    · by_cases hk2 : k = k2
      · simp [setWeek, lookupWeek, hk, hk2, h]
      · simp [setWeek, lookupWeek, hk, hk2, ih]

/-- One step of the dict fold, observed at the key the point belongs to,
is exactly one step of the per-group reduction. -/
theorem lookupWeek_weekStep_same (acc : List ((Nat × Nat) × WeekEntry)) (pt : CalDate × Nat)
    (key : Nat × Nat) (hk : isoYearWeek pt.1 = key) :
    lookupWeek (weekStep acc pt) key = stepMax (lookupWeek acc key) pt := by
  simp only [weekStep, hk]
  cases hacc : lookupWeek acc key with
  | none => simp [stepMax, lookupWeek_setWeek_self]
  | some e =>
    by_cases hle : dateLeB e.fecha pt.1 = true
    · simp [stepMax, hle, lookupWeek_setWeek_self]
    · simp [stepMax, hle, hacc]

/-- One step of the dict fold leaves every other key untouched. -/
theorem lookupWeek_weekStep_other (acc : List ((Nat × Nat) × WeekEntry)) (pt : CalDate × Nat)
    (key : Nat × Nat) (hk : ¬ isoYearWeek pt.1 = key) :
    lookupWeek (weekStep acc pt) key = lookupWeek acc key := by
  have hne : ¬ key = isoYearWeek pt.1 := fun hc => hk hc.symm
  simp only [weekStep]
  cases hacc : lookupWeek acc (isoYearWeek pt.1) with
  | none => exact lookupWeek_setWeek_other acc (isoYearWeek pt.1) key _ hne
  | some e =>
    by_cases hle : dateLeB e.fecha pt.1 = true
    · simp only [hle, if_true]
      exact lookupWeek_setWeek_other acc (isoYearWeek pt.1) key _ hne
    · simp [hle]

/-- The dict fold of `latest_by_iso_week`, observed at one week key,
equals the per-group latest-point reduction over that week's
subsequence. -/
theorem lookupWeek_fold_weekStep (key : Nat × Nat) :
    ∀ (pts : List (CalDate × Nat)) (acc : List ((Nat × Nat) × WeekEntry)),
      lookupWeek (pts.foldl weekStep acc) key =
        (pts.filter (fun pt => decide (isoYearWeek pt.1 = key))).foldl stepMax
          (lookupWeek acc key) := by
  intro pts
  induction pts with
  | nil => intro acc; rfl
  | cons pt rest ih =>
    intro acc
    rw [List.foldl_cons, List.filter_cons]
    by_cases hk : isoYearWeek pt.1 = key
    · rw [if_pos (decide_eq_true hk), List.foldl_cons, ih,
        lookupWeek_weekStep_same acc pt key hk]
    · rw [if_neg (by simpa using hk), ih, lookupWeek_weekStep_other acc pt key hk]

/-- `stepMax` always produces an entry at least as late as the incoming
point and the accumulator, and that entry is the point or the
accumulator. -/
theorem stepMax_some (acc : Option WeekEntry) (pt : CalDate × Nat) :
    ∃ b, stepMax acc pt = some b ∧ dateLeB pt.1 b.fecha = true ∧
      (∀ a, acc = some a → dateLeB a.fecha b.fecha = true) ∧
      (b = ⟨pt.1, pt.2⟩ ∨ acc = some b) := by
  cases acc with
  | none =>
    refine ⟨⟨pt.1, pt.2⟩, rfl, dateLeB_refl pt.1, ?_, Or.inl rfl⟩
    intro a ha
    exact Option.noConfusion ha
  | some a =>
    by_cases h : dateLeB a.fecha pt.1 = true
    · refine ⟨⟨pt.1, pt.2⟩, by simp [stepMax, h], dateLeB_refl pt.1, ?_, Or.inl rfl⟩
      intro a2 ha2
      injection ha2 with ha2
      rw [← ha2]
      exact h
    · refine ⟨a, by simp [stepMax, h], dateLeB_of_not a.fecha pt.1 h, ?_, Or.inr rfl⟩
      intro a2 ha2
      injection ha2 with ha2
      rw [← ha2]
      exact dateLeB_refl a.fecha

/-- The per-group reduction returns a member of the group that no group
member strictly exceeds in date. -/
theorem foldl_stepMax_spec :
    ∀ (pts : List (CalDate × Nat)) (acc : Option WeekEntry) (e : WeekEntry),
      pts.foldl stepMax acc = some e →
      (acc = some e ∨ (e.fecha, e.data) ∈ pts) ∧
      (∀ pt ∈ pts, dateLeB pt.1 e.fecha = true) ∧
      (∀ a, acc = some a → dateLeB a.fecha e.fecha = true) := by
  intro pts
  induction pts with
  | nil =>
    intro acc e h
    rw [List.foldl_nil] at h
    refine ⟨Or.inl h, fun pt hpt => absurd hpt (List.not_mem_nil pt), ?_⟩
    intro a ha
    rw [h] at ha
    injection ha with ha
    rw [ha]
    exact dateLeB_refl a.fecha
  | cons pt rest ih =>
    intro acc e h
    rw [List.foldl_cons] at h
    obtain ⟨b, hb, hptb, haccb, hbform⟩ := stepMax_some acc pt
    rw [hb] at h
    obtain ⟨hmem, hbound, haccbd⟩ := ih (some b) e h
    have hbe : dateLeB b.fecha e.fecha = true := haccbd b rfl
    refine ⟨?_, ?_, ?_⟩
    · rcases hmem with hsome | hrest
      · injection hsome with hbeq
        rcases hbform with h1 | h2
        · right
          rw [← hbeq, h1]
          have : (pt.1, pt.2) = pt := rfl
          rw [this]
          exact List.mem_cons_self pt rest
        · left
          rw [← hbeq]
          exact h2
      · exact Or.inr (List.mem_cons_of_mem pt hrest)
    · intro q hq
      rcases List.mem_cons.mp hq with h1 | h2
      · rw [h1]
        exact dateLeB_trans pt.1 b.fecha e.fecha hptb hbe
      · exact hbound q h2
    · intro a ha
      exact dateLeB_trans a.fecha b.fecha e.fecha (haccb a ha) hbe

/-- C5: the weekly snapshot reducer, grouping daily points by ISO
(year, week), retains for each week exactly the result of reducing that
week's subsequence by keep-the-later-date with last-write-wins on equal
dates; consequently the retained entry is a member of the group whose
date no group member exceeds, and for the concrete points on 2024-01-29,
2024-01-30 and 2024-01-31 (all in ISO week (2024, 5)) the retained
representative is the 2024-01-31 point. -/
theorem claim5_weekly_reducer_latest :
    (∀ (points : List (CalDate × Nat)) (key : Nat × Nat),
      lookupWeek (latest_by_iso_week points) key =
        (weekPointsFor key points).foldl stepMax none) ∧
    (lookupWeek (latest_by_iso_week
        [(⟨2024, 1, 29⟩, 10), (⟨2024, 1, 30⟩, 20), (⟨2024, 1, 31⟩, 30)]) (2024, 5) =
      some ⟨⟨2024, 1, 31⟩, 30⟩) ∧
    (∀ (points : List (CalDate × Nat)) (key : Nat × Nat) (e : WeekEntry),
      lookupWeek (latest_by_iso_week points) key = some e →
      (e.fecha, e.data) ∈ weekPointsFor key points ∧
      ∀ pt ∈ weekPointsFor key points, dateLeB pt.1 e.fecha = true) := by
  refine ⟨?_, ?_, ?_⟩
  · intro points key
    exact lookupWeek_fold_weekStep key points []
  · decide
  · intro points key e he
    rw [latest_by_iso_week, lookupWeek_fold_weekStep key points []] at he
    obtain ⟨hmem, hbound, -⟩ := foldl_stepMax_spec _ none e he
    rcases hmem with hacc | hmem
    · cases hacc
    · exact ⟨hmem, hbound⟩

/-- Witness for C5: at the three concrete January 2024 points the
retained entry is a member of the week group and no group member has a
later date. -/
theorem claim5_weekly_reducer_latest_witness :
    (CalDate.mk 2024 1 31, 30) ∈ weekPointsFor (2024, 5)
        [(⟨2024, 1, 29⟩, 10), (⟨2024, 1, 30⟩, 20), (⟨2024, 1, 31⟩, 30)] ∧
    ∀ pt ∈ weekPointsFor (2024, 5)
        [(⟨2024, 1, 29⟩, 10), (⟨2024, 1, 30⟩, 20), (⟨2024, 1, 31⟩, 30)],
      dateLeB pt.1 (CalDate.mk 2024 1 31) = true :=
  claim5_weekly_reducer_latest.2.2
    [(⟨2024, 1, 29⟩, 10), (⟨2024, 1, 30⟩, 20), (⟨2024, 1, 31⟩, 30)] (2024, 5)
    ⟨⟨2024, 1, 31⟩, 30⟩ (by decide)

/-- C9: the audience-segment writer never modifies an existing stored
row — the store is either left exactly as it was (incoming row silently
dropped on a key conflict, every column of the existing row, including
`cantidad_seguidores`, unchanged even when the incoming count differs) or
extended by appending the new row; and a conflict on the (platform, page,
cutoff, dimension values) key always drops the incoming row. -/
theorem claim9_segment_insert_only (db : List SegRow) (pla pag : String) (fecha : Nat)
    (genero pais ciudad nivel_edu : Option String) (cantidad : Int) :
    (insert_segmento_semanal db pla pag fecha genero pais ciudad nivel_edu cantidad = db ∨
      insert_segmento_semanal db pla pag fecha genero pais ciudad nivel_edu cantidad =
        db ++ [⟨pla, pag, fecha, genero, pais, ciudad, nivel_edu, cantidad⟩]) ∧
    (∀ r ∈ db,
      segSameKey r ⟨pla, pag, fecha, genero, pais, ciudad, nivel_edu, cantidad⟩ = true →
      insert_segmento_semanal db pla pag fecha genero pais ciudad nivel_edu cantidad = db) := by
  constructor
  · simp only [insert_segmento_semanal]
    by_cases h : db.any
        (fun r => segSameKey r ⟨pla, pag, fecha, genero, pais, ciudad, nivel_edu, cantidad⟩) = true
    · left; rw [if_pos h]
    · right; rw [if_neg h]
  · intro r hr hk
    simp only [insert_segmento_semanal]
    rw [if_pos (List.any_eq_true.mpr ⟨r, hr, hk⟩)]

/-- Stored audience-segment row used by the C9 witness. -/
def segRowW : SegRow := ⟨"facebook", "pg", 10, some "F", none, none, none, 42⟩

/-- Witness for C9: re-inserting the same key with a different count (99
versus the stored 42) leaves the store unchanged. -/
theorem claim9_segment_insert_only_witness :
    insert_segmento_semanal [segRowW] "facebook" "pg" 10 (some "F") none none none 99 =
      [segRowW] :=
  (claim9_segment_insert_only [segRowW] "facebook" "pg" 10 (some "F") none none none 99).2
    segRowW (List.mem_cons_self segRowW []) (by decide)

/-- C2: running the daily upsert (`graph_sql.py`) twice with identical
key and metric mapping — with no intervening write — leaves the store
after the second run exactly equal to the store after the first run: the
conflict branch overwrites every non-key column, including the
recomputed deltas, with the same values. -/
theorem claim2_reingest_idempotent (db : List Row) (pla pag pub : String)
    (fecha : Nat) (m : MDict) :
    upsert_metricas_publicacion_diaria
        (upsert_metricas_publicacion_diaria db pla pag pub fecha m) pla pag pub fecha m =
      upsert_metricas_publicacion_diaria db pla pag pub fecha m := by
  have hstable := upsert_diaria_prev_stable db pla pag pub fecha
    (buildRow pla pag pub fecha m (ultimo_registro_prev db pla pag pub fecha)) rfl
  simp only [upsert_metricas_publicacion_diaria]
  rw [hstable]
  exact upsertBy_idem sameKey db _ (by simp [sameKey])

end Datax
